import Mathlib

/-
Verification of the r2r-loki flashcard store against its specification.

The development shallowly embeds the relevant parts of the TypeScript
sources (src/src/index.ts and the Loki-backed variant src/unnamed/part_000)
as executable Lean definitions:

* JavaScript plain objects used as string-keyed dictionaries are modelled
  as association lists in property creation order (a write to a fresh key
  appends it); `Object.values` is modelled with the real enumeration order:
  own keys that are array indices (the canonical decimal form of an integer
  below 2^32 - 1) come first in ascending numeric order, and the remaining
  string keys follow in creation order. The prototype machinery is not
  modelled: a key text of "__proto__" would fall through to the prototype
  setter in JavaScript, and the theorems that depend on object keys exclude
  it by hypothesis.
* `undefined`-able fields are modelled with `Option`; JavaScript string
  truthiness (`undefined` and the empty string are falsy) is modelled
  explicitly where the code relies on it.
* External collaborators that are not part of this repository (the SparkMD5
  digest, the mustache renderer, the uuid generator) are passed in as
  function parameters; code of the repository that is referenced but not
  present under src/ (quiz.ts, util.ts, the r2r-format helpers) is modelled
  from the specification and marked as such in its doc comment.
-/

/-! ## Small JavaScript-semantics helpers -/

/-- Truthiness of an optional string: `undefined` and `""` are falsy. -/
def strTruthy : Option String → Bool
  | none => false
  | some s => s != ""

/-- Truthiness of an optional numeric value: `undefined` and `0` are falsy. -/
def numFalsy : Option Int → Bool
  | none => true
  | some v => v == 0

/-- JavaScript `s.startsWith(pre)`, carried out on the character lists so
that concrete instances evaluate inside the kernel. -/
def jsStartsWith (s pre : String) : Bool :=
  pre.data.isPrefixOf s.data

/-- JavaScript `s.substr(n)`, the characters of `s` from index `n` on,
carried out on the character lists. -/
def jsDrop (s : String) (n : Nat) : String :=
  ⟨s.data.drop n⟩

/-- Decimal digit test, carried out on characters by membership so that
concrete instances evaluate inside the kernel. -/
def isDigitChar (c : Char) : Bool :=
  ("0123456789".data).contains c

/-- Numeric value of a digit string. -/
def digitsToNat (l : List Char) : Nat :=
  l.foldl (fun acc c => acc * 10 + (c.toNat - 48)) 0

/-- JavaScript array-index property keys: the canonical decimal form (no
leading zero) of an integer below 2^32 - 1. A plain object enumerates these
keys first, in ascending numeric order, before the remaining string keys in
creation order. -/
def jsArrayIndex (s : String) : Bool :=
  !s.data.isEmpty && s.data.all isDigitChar &&
    (s == "0" || s.data.headD '0' != '0') &&
    decide (digitsToNat s.data < 4294967295)

/-- Membership test for an association-list object: does the object have key `k`. -/
def objHas (m : List (String × α)) (k : String) : Bool :=
  m.any (fun kv => kv.1 == k)

/-- Property write on an association-list object: overwrite an existing key in
place, otherwise append the new key at the end (JavaScript insertion order). -/
def objSet (m : List (String × α)) (k : String) (v : α) : List (String × α) :=
  if objHas m k then m.map (fun kv => if kv.1 == k then (k, v) else kv)
  else m ++ [(k, v)]

/-- Property read on an association-list object. -/
def objGet (m : List (String × α)) (k : String) : Option α :=
  (m.find? (fun kv => kv.1 == k)).map (fun kv => kv.2)

/-- Key list of an association-list object. -/
def objKeys (m : List (String × α)) : List String :=
  m.map Prod.fst

/-! ## Scheduler (src/src/index.ts lines 450-501, src/unnamed/part_000 lines 541-584)

The interval table and the two review-date helpers live in quiz.ts, which is
imported by both source files but is not under src/. They are modelled from
the specification. -/

/-- Modelled from the spec: `getNextReview` of quiz.ts (not under src/):
`nextReview = now + intervalTable[srsLevel]`. -/
def getNextReview (srsMap : List Nat) (now : Nat) (lvl : Int) : Nat :=
  now + srsMap.getD lvl.toNat 0

/-- Modelled from the spec: `repeatReview` of quiz.ts (not under src/):
`nextReview = now + shortFixedRepeatInterval`, a short interval independent
of the interval table; the interval length is a parameter. -/
def repeatReview (repeatInterval : Nat) (now : Nat) : Nat :=
  now + repeatInterval

/-- Streak counters of a card, `stat.streak` in the sources. -/
structure Streak where
  right : Nat
  wrong : Nat
deriving DecidableEq, Repr

/-- Review statistics of a card, `stat` in the sources. -/
structure CardStat where
  streak : Streak
deriving DecidableEq, Repr

/-- A row of the card collection (`IDbCard` in src/src/index.ts). -/
structure DbCard where
  cid : String := ""
  deckId : String := ""
  templateId : Option String := none
  noteId : Option String := none
  front : String := ""
  back : Option String := none
  mnemonic : Option String := none
  srsLevel : Option Int := none
  nextReview : Option Nat := none
  tag : List String := []
  created : Nat := 0
  modified : Option Nat := none
  stat : Option CardStat := none
deriving DecidableEq, Repr

/-- In-memory mutation performed by `updateSrsLevel` on the card it found
(src/src/index.ts lines 465-497): default the level and the streak counters,
bump the appropriate counter, add `dSrsLevel`, clamp into
`[0, srsMap.length - 1]`, and recompute `nextReview`. -/
def updateSrsLevelCard (srsMap : List Nat) (repeatInterval : Nat) (now : Nat)
    (dSrsLevel : Int) (c : DbCard) : DbCard :=
  let lvl0 : Int := c.srsLevel.getD 0
  let st0 : CardStat := c.stat.getD ⟨⟨0, 0⟩⟩
  let st1 : CardStat :=
    if dSrsLevel > 0 then ⟨⟨st0.streak.right + 1, st0.streak.wrong⟩⟩
    else if dSrsLevel < 0 then ⟨⟨st0.streak.right, st0.streak.wrong + 1⟩⟩
    else st0
  let lvl1 : Int := lvl0 + dSrsLevel
  let lvl2 : Int := if lvl1 ≥ (srsMap.length : Int) then (srsMap.length : Int) - 1 else lvl1
  let lvl3 : Int := if lvl2 < 0 then 0 else lvl2
  let nr : Nat :=
    if dSrsLevel > 0 then getNextReview srsMap now lvl3
    else repeatReview repeatInterval now
  { c with srsLevel := some lvl3, stat := some st1, nextReview := some nr }

/-- A right review, `markRight = updateSrsLevel(+1, ...)`. -/
def markRightCard (srsMap : List Nat) (repeatInterval : Nat) (now : Nat) (c : DbCard) : DbCard :=
  updateSrsLevelCard srsMap repeatInterval now 1 c

/-- A wrong review, `markWrong = updateSrsLevel(-1, ...)`. -/
def markWrongCard (srsMap : List Nat) (repeatInterval : Nat) (now : Nat) (c : DbCard) : DbCard :=
  updateSrsLevelCard srsMap repeatInterval now (-1) c

/-- One review step of either kind, used to talk about sequences of reviews:
`true` is a right answer, `false` a wrong one. -/
def reviewStep (srsMap : List Nat) (repeatInterval : Nat) (now : Nat)
    (c : DbCard) (outcome : Bool) : DbCard :=
  if outcome then markRightCard srsMap repeatInterval now c
  else markWrongCard srsMap repeatInterval now c

/-- Store-level `updateSrsLevel` (src/src/index.ts lines 458-501): look the
card up by id, return silently when absent, otherwise compute the new
scheduling fields and persist them through `updateMany`, whose
`transformCreateOrUpdate` stamps `modified` on the update payload. -/
def updateSrsLevelStore (srsMap : List Nat) (repeatInterval : Nat) (now : Nat)
    (dSrsLevel : Int) (cardId : String) (cards : List DbCard) : List DbCard :=
  match cards.find? (fun c => c.cid == cardId) with
  | none => cards
  | some c =>
    let c1 := updateSrsLevelCard srsMap repeatInterval now dSrsLevel c
    cards.map (fun c0 =>
      if c0.cid == cardId then
        { c0 with srsLevel := c1.srsLevel, stat := c1.stat,
                  nextReview := c1.nextReview, modified := some now }
      else c0)

/-! ## Content addressing (src/unnamed/part_000 lines 192-199)

The digest itself (SparkMD5) is an external package and is a parameter; the
canonical serialization is the external stable-stringify package, modelled
from the spec as a key-sorted deterministic rendering of the field map. -/

/-- Key order used by the canonical serialization. -/
def keyLE (a b : String × String) : Prop :=
  a.1 ≤ b.1

instance : DecidableRel keyLE :=
  fun a b => inferInstanceAs (Decidable (a.1 ≤ b.1))

/-- Modelled from the spec: the stable-stringify collaborator canonicalizes a
field map into a key-sorted, deterministic byte sequence. -/
def stableStringify (m : List (String × String)) : String :=
  String.intercalate ","
    ((m.insertionSort keyLE).map (fun kv => kv.1 ++ ":" ++ kv.2))

/-- Content key of a note, `getNoteId` (src/unnamed/part_000 lines 197-199):
the digest of the stable serialization of the data map. -/
def getNoteId (md5 : String → String) (data : List (String × String)) : String :=
  md5 (stableStringify data)

/-- Rendering-relevant content of a template, the argument of `getTemplateId`. -/
structure TemplateSig where
  front : String := ""
  back : Option String := none
  css : Option String := none
  js : Option String := none
deriving DecidableEq, Repr

/-- Optional field of a serialized object: stable-stringify omits keys whose
value is undefined. -/
def optEntry (k : String) : Option String → List (String × String)
  | none => []
  | some v => [(k, v)]

/-- Content key of a template, `getTemplateId` (src/unnamed/part_000 lines
192-195): the digest of the stable (key-sorted) serialization of the object
holding exactly the front, back, css and js fields. -/
def getTemplateId (md5 : String → String) (t : TemplateSig) : String :=
  md5 (stableStringify
    (optEntry "back" t.back ++ optEntry "css" t.css ++ [("front", t.front)] ++ optEntry "js" t.js))

/-! ## Virtual post-filters of the query engine
(src/src/index.ts lines 188-214, src/unnamed/part_000 lines 214-240) -/

/-- A joined row as seen by the virtual post-filters: they read only the
`front` text and the note `key`; `val` stands for the rest of the row and
keeps distinct rows distinguishable. -/
structure QRow where
  front : String := ""
  key : Option String := none
  val : Nat := 0
deriving DecidableEq, Repr

/-- One loop iteration of the `is:duplicate` filter body:
`col[k] = col[k] || []; col[k].push(it)` as an own-property write on the
collation object (a front text of `__proto__` would instead fall through to
the prototype setter; the theorems exclude it by hypothesis). -/
def dupAdd (col : List (String × List QRow)) (it : QRow) : List (String × List QRow) :=
  if objHas col it.front then
    col.map (fun kv => if kv.1 == it.front then (kv.1, kv.2 ++ [it]) else kv)
  else col ++ [(it.front, [it])]

/-- Numeric order on the collation entries whose keys are array indices. -/
def frontIdxLE (a b : String × List QRow) : Prop :=
  digitsToNat a.1.data ≤ digitsToNat b.1.data

instance : DecidableRel frontIdxLE :=
  fun a b => inferInstanceAs (Decidable (digitsToNat a.1.data ≤ digitsToNat b.1.data))

/-- JavaScript `Object.values` of the front-text collation object: entries
under array-index keys first, in ascending numeric order, then the other
entries in creation order. -/
def jsObjValues (m : List (String × List QRow)) : List (List QRow) :=
  ((m.filter (fun kv => jsArrayIndex kv.1)).insertionSort frontIdxLE).map Prod.snd ++
    (m.filter (fun kv => !jsArrayIndex kv.1)).map Prod.snd

/-- The `is:duplicate` post-filter: collate rows by front text, keep the
groups of size above one, flatten (`Object.values(col).filter(...).reduce`). -/
def isDuplicateFilter (rows : List QRow) : List QRow :=
  ((jsObjValues (rows.foldl dupAdd [])).filter (fun a => decide (a.length > 1))).flatten

/-- Front texts of a row list in order of first occurrence, skipping a seen
set; the specification side of the `is:duplicate` grouping. -/
def firstFronts (seen : List String) : List QRow → List String
  | [] => []
  | r :: rest =>
    if r.front ∈ seen then firstFronts seen rest
    else r.front :: firstFronts (r.front :: seen) rest

/-- Specification reading of the collation object built by `is:duplicate`:
one entry per first-occurrence front (outside `banned`), carrying every row
with that front in original order. -/
def dupColSpec (banned : List String) (rows : List QRow) : List (String × List QRow) :=
  (firstFronts banned rows).map (fun f => (f, rows.filter (fun r => r.front == f)))

/-- Specification reading of the whole `is:duplicate` filter, phrased as the
claim states it: group rows by front text, keep exactly the groups with more
than one row, flatten preserving first-occurrence order of groups and
original order inside each group. -/
def isDuplicateSpec (rows : List QRow) : List QRow :=
  (((dupColSpec [] rows).map Prod.snd).filter (fun a => decide (a.length > 1))).flatten

/-- Keys of the collation object built by `is:distinct`: note keys, or fresh
uuid values for rows without a truthy key (uuid collisions are not modelled). -/
inductive ColKey
  | str (s : String)
  | fresh (n : Nat)
deriving DecidableEq, Repr

/-- One loop iteration of the `is:distinct` filter body: a row with a truthy
key is recorded only when the key is not yet present; other rows are stored
under a fresh uuid key. -/
def distAdd (acc : List (ColKey × QRow) × Nat) (it : QRow) : List (ColKey × QRow) × Nat :=
  if strTruthy it.key then
    if acc.1.any (fun kv => kv.1 == ColKey.str (it.key.getD "")) then acc
    else (acc.1 ++ [(ColKey.str (it.key.getD ""), it)], acc.2)
  else (acc.1 ++ [(ColKey.fresh acc.2, it)], acc.2 + 1)

/-- Does a collation key of `is:distinct` enumerate as an array index: only
a string note key of array-index form does; the fresh uuid keys never do (a
version 4 uuid always contains hyphens). -/
def colKeyArrayIndex : ColKey → Bool
  | .str s => jsArrayIndex s
  | .fresh _ => false

/-- Numeric value of an array-index collation key. -/
def colKeyIdxVal : ColKey → Nat
  | .str s => digitsToNat s.data
  | .fresh _ => 0

/-- Numeric order on the collation entries whose keys are array indices. -/
def colKeyIdxLE (a b : ColKey × QRow) : Prop :=
  colKeyIdxVal a.1 ≤ colKeyIdxVal b.1

instance : DecidableRel colKeyIdxLE :=
  fun a b => inferInstanceAs (Decidable (colKeyIdxVal a.1 ≤ colKeyIdxVal b.1))

/-- JavaScript `Object.values` of the `is:distinct` collation object:
entries under array-index keys first, in ascending numeric order, then the
other entries in creation order. -/
def jsColValues (m : List (ColKey × QRow)) : List QRow :=
  ((m.filter (fun kv => colKeyArrayIndex kv.1)).insertionSort colKeyIdxLE).map Prod.snd ++
    (m.filter (fun kv => !colKeyArrayIndex kv.1)).map Prod.snd

/-- The `is:distinct` post-filter: `Object.values` of the collation object. -/
def isDistinctFilter (rows : List QRow) : List QRow :=
  jsColValues (rows.foldl distAdd ([], 0)).1

/-- Well-formed note key of a joined row: not the empty string (falsy in
`if (k)`), not an array-index string (numerically reordered by the object
enumeration), not `__proto__` (hits the prototype in `col[k]`). Real note
keys are md5 digests or digest-suffixed composites, which satisfy all
three. -/
def goodKey : Option String → Prop
  | none => True
  | some k => k ≠ "" ∧ jsArrayIndex k = false ∧ k ≠ "__proto__"

instance : DecidablePred goodKey := fun o =>
  match o with
  | none => isTrue trivial
  | some k =>
    inferInstanceAs (Decidable (k ≠ "" ∧ jsArrayIndex k = false ∧ k ≠ "__proto__"))

/-- Specification reading of `is:distinct`, phrased as the claim states it:
keep the first row per distinct note key, keep every keyless row, preserve
order of first occurrence. -/
def distinctSpecGo (seen : List String) : List QRow → List QRow
  | [] => []
  | r :: rest =>
    match r.key with
    | some k => if k ∈ seen then distinctSpecGo seen rest else r :: distinctSpecGo (k :: seen) rest
    | none => r :: distinctSpecGo seen rest

/-- Specification reading of the whole `is:distinct` filter. -/
def isDistinctSpec (rows : List QRow) : List QRow :=
  distinctSpecGo [] rows

/-! ## Pagination and projection of parseCond
(src/src/index.ts lines 271-292, src/unnamed/part_000 lines 301-326)

Condition parsing, the joins and the registered filters run inside the
external q2filter and LokiJS collaborators; the filtered row list reaching
`parser.filter(query.data(), q)` is therefore a parameter (`filterQ` applied
to the joined rows), and the embedding covers the tail of `parseCond`:
missing-fields early return, `endPoint`, `slice`, projection and `count`. -/

/-- Options of parseCond as used by the pagination tail. -/
structure CondOptions where
  offset : Option Nat := none
  limit : Option Nat := none
  fields : Option (List String) := none

/-- Projection step on one returned row: delete every key not in the
requested field list. -/
def projectRow (fields : List String) (c : List (String × String)) : List (String × String) :=
  c.filter (fun kv => fields.contains kv.1)

/-- JavaScript `Array.prototype.slice(start, endPoint)` for in-range indices:
the elements with index in `[start, endPoint)`, to the end when `endPoint`
is undefined. -/
def jsSlice (l : List α) (start : Nat) (endPoint : Option Nat) : List α :=
  match endPoint with
  | none => l.drop start
  | some e => (l.take e).drop start

/-- Pagination tail of `parseCond` (src/src/index.ts lines 222-291): with no
`fields` option the call returns empty data and zero count; otherwise the
filtered rows are counted before slicing, `endPoint` exists only when
`options.limit` is truthy (nonzero), and each sliced row is projected onto
the requested fields. -/
def parseCond (filterQ : List (List (String × String)) → List (List (String × String)))
    (rows : List (List (String × String))) (options : CondOptions) :
    List (List (String × String)) × Nat :=
  match options.fields with
  | none => ([], 0)
  | some fields =>
    let cards := filterQ rows
    let endPoint : Option Nat :=
      match options.limit with
      | some l => if l == 0 then none else some (options.offset.getD 0 + l)
      | none => none
    ((jsSlice cards (options.offset.getD 0) endPoint).map (projectRow fields), cards.length)

/-- Slice of the row list exactly as claim C5 words it: the rows at indices
`[offset, offset + limit)`, an absent offset treated as 0, an absent limit
meaning unbounded. -/
def claimSlice (rows : List (List (String × String))) (offset limit : Option Nat) :
    List (List (String × String)) :=
  match limit with
  | none => rows.drop (offset.getD 0)
  | some l => (rows.drop (offset.getD 0)).take l

/-! ## Card transform pipeline
(src/src/index.ts lines 503-555, src/unnamed/part_000 lines 586-638)

The mustache renderer (`ankiMustache`, from util.ts / r2r-format, neither
under src/), the digest and the two store lookups `getData`/`getFront` are
parameters; the pipeline itself is embedded statement by statement. The
JavaScript guards `u.front && u.front.startsWith(...)` collapse to a
`startsWith` test on the defaulted string, since the empty string never
starts with the marker. -/

/-- A create/update payload (`Partial<IEntry>`), with the fields the
transform pipeline reads or writes. -/
structure Entry where
  front : Option String := none
  back : Option String := none
  mnemonic : Option String := none
  tFront : Option String := none
  tBack : Option String := none
  data : Option (List (String × String)) := none
  srsLevel : Option Int := none
  nextReview : Option Nat := none
  stat : Option CardStat := none
  created : Option Nat := none
  modified : Option Nat := none
deriving DecidableEq, Repr

/-- The pending-render request marker. -/
def templateMarker : String := "@template\n"

/-- The `transformCreateOrUpdate` pipeline (src/src/index.ts lines 503-555):
stamp created/modified; turn a front template request into `tFront` plus a
rendered `@md5` front; turn a back template request into `tBack`
(which the code reads from `u.front`) plus, when `tBack` is truthy, a
rendered `@md5` back. -/
def transformCreateOrUpdate (md5 : String → String)
    (render : String → List (String × String) → String → String)
    (getData : String → Option (List (String × String)))
    (getFront : String → String)
    (cardId : Option String) (u : Entry) (timestamp : Nat) : Entry :=
  let data0 : Option (List (String × String)) := none
  let front0 : String := ""
  let u1 : Entry :=
    match cardId with
    | none => { u with created := some timestamp }
    | some _ => { u with modified := some timestamp }
  let step1 : Option (List (String × String)) × Entry :=
    if jsStartsWith (u1.front.getD "") templateMarker then
      let d := if data0.isNone then
          (match cardId with
           | some cid => getData cid
           | none => some (u1.data.getD []))
        else data0
      (d, { u1 with tFront := some (jsDrop (u1.front.getD "") templateMarker.length) })
    else (data0, u1)
  let data1 := step1.1
  let u2 := step1.2
  let step2 : String × Entry :=
    if strTruthy u2.tFront then
      let f := render (u2.tFront.getD "") (data1.getD []) ""
      (f, { u2 with front := some ("@md5\n" ++ md5 f) })
    else (front0, u2)
  let front1 := step2.1
  let u3 := step2.2
  let step3 : Option (List (String × String)) × String × Entry :=
    if jsStartsWith (u3.back.getD "") templateMarker then
      let d := if data1.isNone then
          (match cardId with
           | some cid => getData cid
           | none => some (u3.data.getD []))
        else data1
      let u4 := { u3 with tBack := some (jsDrop (u3.front.getD "") templateMarker.length) }
      let f := if front1 = "" then
          (match cardId with
           | some _ => getFront (cardId.getD "")
           | none => front1)
        else front1
      (d, f, u4)
    else (data1, front1, u3)
  let data2 := step3.1
  let front2 := step3.2.1
  let u5 := step3.2.2
  if strTruthy u5.tBack then
    let b := render (u5.tBack.getD "") (data2.getD []) front2
    { u5 with back := some ("@md5\n" ++ md5 b) }
  else u5

/-! ## Note rows and the key-set invariant
(src/unnamed/part_000 lines 142-155 and 433-461)

`fromSortedData` comes from the r2r-format package (not under src/) and is
modelled from the spec; the data branch of `updateMany` is embedded from the
source. Only the key sets of `data` and `order` matter to claim C8; the
JavaScript value `Math.max()` of an empty spread, which is `-Infinity`, is
modelled by a very small integer sentinel. -/

/-- A row of the note collection (`IDbNote`). -/
structure DbNote where
  key : Option String := none
  name : String := ""
  data : List (String × String) := []
  order : List (String × Int) := []
deriving DecidableEq, Repr

/-- One entry of the sorted-data conversion: record the value in the data
map and the (1-based) position in the order map, under the same key. -/
def sortedStep (acc : List (String × String) × List (String × Int))
    (ikv : Nat × (String × String)) :
    List (String × String) × List (String × Int) :=
  (objSet acc.1 ikv.2.1 ikv.2.2, objSet acc.2 ikv.2.1 ((ikv.1 : Int) + 1))

/-- Modelled from the spec: `fromSortedData` of the r2r-format package (not
under src/) converts the sorted key/value array form of note data into the
data map plus the order map that records each key position (1-based, as the
insertMany path of src/src/index.ts builds it). -/
def fromSortedData (l : List (String × String)) :
    List (String × String) × List (String × Int) :=
  l.enum.foldl sortedStep ([], [])

/-- Sentinel standing for the JavaScript `-Infinity` produced by
`Math.max()` over an empty value spread. -/
def negInfSentinel : Int := -(2 ^ 53)

/-- JavaScript `Math.max(floor, ...values)`. -/
def jsMathMax (floor : Int) (vals : List Int) : Int :=
  vals.foldl max floor

/-- The note pre-insert/pre-update hook `nHook` applied to an array-form
payload (src/unnamed/part_000 lines 142-152): split the sorted data into
`data`/`order` and stamp the content key. -/
def nHookInsert (md5 : String → String) (l : List (String × String)) : DbNote :=
  let p := fromSortedData l
  { data := p.1, order := p.2, key := some (getNoteId md5 p.1) }

/-- One iteration of the data branch of `updateMany` over an existing note
(src/unnamed/part_000 lines 437-443): a key whose order entry is falsy gets
the next position; the data value is always written. -/
def noteDataStep (n0 : DbNote) (kv : String × String) : DbNote :=
  let o :=
    if numFalsy (objGet n0.order kv.1) then
      objSet n0.order kv.1 (jsMathMax negInfSentinel (n0.order.map Prod.snd) + 1)
    else n0.order
  { n0 with order := o, data := objSet n0.data kv.1 kv.2 }

/-- The data branch of `updateMany` on an existing note: fold the patch. -/
def updateNoteData (patch : List (String × String)) (n : DbNote) : DbNote :=
  patch.foldl noteDataStep n

/-- One iteration of the data branch of `updateMany` when no note row exists
(src/unnamed/part_000 lines 448-455); here the `Math.max` spread carries the
explicit -1 floor. -/
def freshNoteStep (acc : List (String × Int) × List (String × String)) (kv : String × String) :
    List (String × Int) × List (String × String) :=
  let o :=
    if numFalsy (objGet acc.1 kv.1) then
      objSet acc.1 kv.1 (jsMathMax (-1) (acc.1.map Prod.snd) + 1)
    else acc.1
  (o, objSet acc.2 kv.1 kv.2)

/-- The note created by the data branch of `updateMany` when the card has no
note row (src/unnamed/part_000 lines 447-460). -/
def noteFromPatch (md5 : String → String) (patch : List (String × String)) : DbNote :=
  let folded := patch.foldl freshNoteStep ([], [])
  { key := some (getNoteId md5 folded.2),
    name := getNoteId md5 folded.2 ++ "/" ++ ((folded.2.map Prod.snd).headD ""),
    data := folded.2,
    order := folded.1 }

/-- The two ways a note row is created by the embedded operations. -/
inductive NoteInit
  | sorted (md5 : String → String) (l : List (String × String))
  | patch (md5 : String → String) (p : List (String × String))

/-- Note row produced by a creation operation. -/
def noteInit : NoteInit → DbNote
  | .sorted md5 l => nHookInsert md5 l
  | .patch md5 p => noteFromPatch md5 p

/-- A sequence of data-branch updates applied to a note row. -/
def applyNoteUpdates (n : DbNote) (ops : List (List (String × String))) : DbNote :=
  ops.foldl (fun n0 p => updateNoteData p n0) n

/-! ## Entity store and the Anki import
(src/src/index.ts lines 105-168 and 596-707, src/unnamed/part_000 lines
687-695 for createMedia)

Collections are modelled as row lists; the unique-key declarations of the
constructor (`deck: [name, _id]`, `card: [_id]`, `source: [h]`,
`template: [name]`, `note: [key]`, `media: [h]`) become the collision checks
of the insert operations. A failed `insertOne` inside a try/catch that
ignores the error becomes a no-op insert. -/

/-- A row of the source collection (`IDbSource`). -/
structure SourceRow where
  h : String
  name : String := ""
  created : Nat := 0
deriving DecidableEq, Repr

/-- A row of the media collection (`IDbMedia`). -/
structure MediaRow where
  h : String
  name : String := ""
  data : List Nat := []
  sourceId : Option String := none
deriving DecidableEq, Repr

/-- A row of the template collection (`IDbTemplate`). -/
structure TemplateRow where
  name : String
  sourceId : String := ""
  front : String := ""
  back : Option String := none
  css : Option String := none
  js : Option String := none
deriving DecidableEq, Repr

/-- A row of the note collection as stored by the import (`IDbNote`). -/
structure NoteRow where
  key : String
  data : List (String × String) := []
  order : List (String × Int) := []
  sourceId : Option String := none
deriving DecidableEq, Repr

/-- A row of the deck collection (`IDbDeck`). -/
structure DeckRow where
  did : String
  name : String
deriving DecidableEq, Repr

/-- The six uniquely keyed collections of one store instance. -/
structure Store where
  source : List SourceRow := []
  media : List MediaRow := []
  template : List TemplateRow := []
  note : List NoteRow := []
  card : List DbCard := []
  deck : List DeckRow := []
deriving DecidableEq, Repr

/-- Insert of a source row; `none` signals the unique-h violation the import
catches to abort. -/
def insertSource (st : Store) (s : SourceRow) : Option Store :=
  if st.source.any (fun x => x.h == s.h) then none
  else some { st with source := st.source ++ [s] }

/-- Insert of a media row inside a try/catch that ignores the duplicate. -/
def tryInsertMedia (st : Store) (m : MediaRow) : Store :=
  if st.media.any (fun x => x.h == m.h) then st
  else { st with media := st.media ++ [m] }

/-- Insert of a template row inside a try/catch that ignores the duplicate. -/
def tryInsertTemplate (st : Store) (t : TemplateRow) : Store :=
  if st.template.any (fun x => x.name == t.name) then st
  else { st with template := st.template ++ [t] }

/-- Insert of a note row inside a try/catch that ignores the duplicate. -/
def tryInsertNote (st : Store) (n : NoteRow) : Store :=
  if st.note.any (fun x => x.key == n.key) then st
  else { st with note := st.note ++ [n] }

/-- Insert of a card row inside a try/catch that ignores the duplicate. -/
def tryInsertCard (st : Store) (c : DbCard) : Store :=
  if st.card.any (fun x => x.cid == c.cid) then st
  else { st with card := st.card ++ [c] }

/-- Deck resolution of the import (src/src/index.ts lines 647-657): insert a
deck under a fresh id, and on a unique violation fall back to looking the
existing deck up by name. -/
def deckResolve (st : Store) (newId : String) (name : String) : Store × String :=
  if st.deck.any (fun d => d.name == name || d.did == newId) then
    (st, ((st.deck.find? (fun d => d.name == name)).map (fun d => d.did)).getD "")
  else ({ st with deck := st.deck ++ [⟨newId, name⟩] }, newId)

/-- The `createMedia` operation (src/unnamed/part_000 lines 687-695): digest
the bytes, insert, return the digest; on a duplicate return the empty
string. -/
def createMedia (md5b : List Nat → String) (st : Store) (name : String) (data : List Nat) :
    Store × String :=
  let h := md5b data
  if st.media.any (fun m => m.h == h) then (st, "")
  else ({ st with media := st.media ++ [{ h := h, name := name, data := data, sourceId := none }] }, h)

/-- One media row of the external interchange package. -/
structure AnkiMedia where
  h : String
  name : String := ""
  data : List Nat := []
deriving DecidableEq, Repr

/-- One card row of the external interchange package, flattened to the
fields the import reads. -/
structure AnkiCardEl where
  deckName : String := ""
  templateName : String := ""
  modelName : String := ""
  qfmt : String := ""
  afmt : String := ""
  flds : List String := []
  noteFlds : List String := []
deriving DecidableEq, Repr

/-- The external interchange package: a byte blob plus media and card
tables. -/
structure AnkiPkg where
  filePath : String := ""
  fileBytes : List Nat := []
  media : List AnkiMedia := []
  cards : List AnkiCardEl := []
deriving DecidableEq, Repr

/-- Fuel-driven worker of `chunk`. -/
def chunkGo (fuel : Nat) (n : Nat) : List α → List (List α)
  | [] => []
  | l =>
    match fuel with
    | 0 => [l]
    | f + 1 => l.take n :: chunkGo f n (l.drop n)

/-- Modelled from the spec: `chunk` of util.ts (not under src/) splits a
list into consecutive pieces of the given size; the import uses size 1000.
The fuel argument only makes the recursion structural. -/
def chunk (n : Nat) (l : List α) : List (List α) :=
  chunkGo l.length n l

/-- Data and order maps built from the field names and values of one
external card (src/src/index.ts lines 672-677). -/
def buildDataOrder (flds noteFlds : List String) :
    List (String × String) × List (String × Int) :=
  flds.enum.foldl
    (fun acc ik => (objSet acc.1 ik.2 (noteFlds.getD ik.1 ""), objSet acc.2 ik.2 (ik.1 : Int)))
    ([], [])

/-- Loop state of the card chunk loop of the import: the store plus the
deck-name-to-id map, the template and note id sets and the uuid counter. -/
structure AnkiState where
  st : Store
  deckIdMap : List (String × String) := []
  templateIdSet : List String := []
  noteIdSet : List String := []
  ctr : Nat := 0

/-- Deck resolution stage of one external card (src/src/index.ts lines
646-657): resolve the deck by name once per distinct name. -/
def ankiDeckStep (uuid : Nat → String) (el : AnkiCardEl) (a : AnkiState) : AnkiState :=
  if a.deckIdMap.any (fun kv => kv.1 == el.deckName) then a
  else
    let r := deckResolve a.st (uuid a.ctr) el.deckName
    { a with st := r.1, ctr := a.ctr + 1, deckIdMap := a.deckIdMap ++ [(el.deckName, r.2)] }

/-- Composite template name of one external card. -/
def ankiTemplateId (sourceH : String) (el : AnkiCardEl) : String :=
  sourceH ++ "/" ++ el.modelName ++ "/" ++ el.templateName

/-- Template insertion stage of one external card (src/src/index.ts lines
659-670). -/
def ankiTemplateStep (sourceH : String) (el : AnkiCardEl) (a : AnkiState) : AnkiState :=
  if a.templateIdSet.contains (ankiTemplateId sourceH el) then a
  else { a with
    templateIdSet := a.templateIdSet ++ [ankiTemplateId sourceH el],
    st := tryInsertTemplate a.st
      { name := ankiTemplateId sourceH el, sourceId := sourceH,
        front := el.qfmt, back := some el.afmt } }

/-- Content key of the note of one external card. -/
def ankiNoteKey (md5 : String → String) (sourceH : String) (el : AnkiCardEl) : String :=
  sourceH ++ "/" ++ md5 (stableStringify (buildDataOrder el.flds el.noteFlds).1)

/-- Note insertion stage of one external card (src/src/index.ts lines
672-687); the source never adds to `noteIdSet`, so the membership test stays
vacuous and dedup rests on the unique key. -/
def ankiNoteStep (md5 : String → String) (sourceH : String) (el : AnkiCardEl)
    (a : AnkiState) : AnkiState :=
  if a.noteIdSet.contains (ankiNoteKey md5 sourceH el) then a
  else { a with st := (tryInsertNote a.st
    { key := ankiNoteKey md5 sourceH el,
      data := (buildDataOrder el.flds el.noteFlds).1,
      order := (buildDataOrder el.flds el.noteFlds).2 }) }

/-- Card insertion stage of one external card (src/src/index.ts lines
689-702): render front and back and store the md5 markers. -/
def ankiCardInsertStep (md5 : String → String)
    (render : String → List (String × String) → String → String)
    (uuid : Nat → String) (now : Nat) (sourceH : String) (el : AnkiCardEl)
    (a : AnkiState) : AnkiState :=
  let p := buildDataOrder el.flds el.noteFlds
  let front := render el.qfmt p.1 ""
  let back := render el.afmt p.1 front
  { a with
    st := tryInsertCard a.st
      { cid := uuid a.ctr,
        deckId := ((a.deckIdMap.find? (fun kv => kv.1 == el.deckName)).map Prod.snd).getD "",
        templateId := some (ankiTemplateId sourceH el),
        noteId := some (ankiNoteKey md5 sourceH el),
        front := "@md5\n" ++ md5 front,
        back := some ("@md5\n" ++ md5 back),
        created := now },
    ctr := a.ctr + 1 }

/-- Processing of one external card (src/src/index.ts lines 646-702): the
four stages in order. -/
def fromAnkiCardStep (md5 : String → String)
    (render : String → List (String × String) → String → String)
    (uuid : Nat → String) (now : Nat) (sourceH : String)
    (a : AnkiState) (el : AnkiCardEl) : AnkiState :=
  ankiCardInsertStep md5 render uuid now sourceH el
    (ankiNoteStep md5 sourceH el
      (ankiTemplateStep sourceH el
        (ankiDeckStep uuid el a)))

/-- The `fromAnki` import (src/src/index.ts lines 596-707): hash the raw
package bytes; abort unchanged when a source row with that hash exists;
otherwise insert the source row, the media rows, and the card table in
chunks of 1000. -/
def fromAnki (md5b : List Nat → String) (md5 : String → String)
    (render : String → List (String × String) → String → String)
    (uuid : Nat → String) (now : Nat) (pkg : AnkiPkg) (st : Store) : Store :=
  let sourceH := md5b pkg.fileBytes
  match insertSource st { h := sourceH, name := pkg.filePath, created := now } with
  | none => st
  | some st1 =>
    let st2 := pkg.media.foldl
      (fun s el => tryInsertMedia s { h := el.h, name := el.name, data := el.data, sourceId := some sourceH })
      st1
    ((chunk 1000 pkg.cards).foldl
      (fun (acc : AnkiState) (c : List AnkiCardEl) =>
        c.foldl (fromAnkiCardStep md5 render uuid now sourceH) acc)
      { st := st2 }).st

theorem updateSrsLevelCard_srsLevel_mem (srsMap : List Nat) (repeatInterval now : Nat)
    (d : Int) (c : DbCard) (hlen : srsMap ≠ []) :
    0 ≤ (updateSrsLevelCard srsMap repeatInterval now d c).srsLevel.getD 0 ∧
      (updateSrsLevelCard srsMap repeatInterval now d c).srsLevel.getD 0 ≤ (srsMap.length : Int) - 1 := by
  have hpos : 0 < srsMap.length := List.length_pos.mpr hlen
  unfold updateSrsLevelCard
  dsimp only
  split <;> split <;> simp <;> omega

theorem markRightCard_eq (srsMap : List Nat) (repeatInterval now : Nat) (c : DbCard)
    (hlen : srsMap ≠ []) (h0 : 0 ≤ c.srsLevel.getD 0) :
    markRightCard srsMap repeatInterval now c =
      { c with
        srsLevel := some (min (c.srsLevel.getD 0 + 1) ((srsMap.length : Int) - 1)),
        stat := some ⟨⟨(c.stat.getD ⟨⟨0, 0⟩⟩).streak.right + 1, (c.stat.getD ⟨⟨0, 0⟩⟩).streak.wrong⟩⟩,
        nextReview := some (getNextReview srsMap now
          (min (c.srsLevel.getD 0 + 1) ((srsMap.length : Int) - 1))) } := by
  have hpos : 0 < srsMap.length := List.length_pos.mpr hlen
  unfold markRightCard updateSrsLevelCard
  have hmin : (if c.srsLevel.getD 0 + 1 ≥ (srsMap.length : Int)
      then (srsMap.length : Int) - 1 else c.srsLevel.getD 0 + 1) =
      min (c.srsLevel.getD 0 + 1) ((srsMap.length : Int) - 1) := by
    split <;> omega
  simp only [show ((1:Int) > 0) = True by simp, if_true, hmin]
  have hneg : (min (c.srsLevel.getD 0 + 1) ((srsMap.length : Int) - 1) < 0) = False := by
    simp only [eq_iff_iff, iff_false, not_lt]
    omega
  simp only [hneg, if_false]

theorem markWrongCard_eq (srsMap : List Nat) (repeatInterval now : Nat) (c : DbCard)
    (h0 : 0 ≤ c.srsLevel.getD 0) (hlt : c.srsLevel.getD 0 < (srsMap.length : Int)) :
    markWrongCard srsMap repeatInterval now c =
      { c with
        srsLevel := some (max (c.srsLevel.getD 0 - 1) 0),
        stat := some ⟨⟨(c.stat.getD ⟨⟨0, 0⟩⟩).streak.right, (c.stat.getD ⟨⟨0, 0⟩⟩).streak.wrong + 1⟩⟩,
        nextReview := some (repeatReview repeatInterval now) } := by
  unfold markWrongCard updateSrsLevelCard
  have hge : (c.srsLevel.getD 0 + -1 ≥ (srsMap.length : Int)) = False := by
    simp only [eq_iff_iff, iff_false, not_le]
    omega
  have hmax : (if c.srsLevel.getD 0 + -1 < 0 then 0 else c.srsLevel.getD 0 + -1) =
      max (c.srsLevel.getD 0 - 1) 0 := by
    split <;> omega
  simp only [show ((-1:Int) > 0) = False by simp, if_false,
    show ((-1:Int) < 0) = True by simp, if_true, hge, hmax]

theorem reviewSeq_srsLevel_mem (srsMap : List Nat) (repeatInterval now : Nat)
    (hlen : srsMap ≠ []) :
    ∀ (outcomes : List Bool) (c : DbCard), outcomes ≠ [] →
      0 ≤ (outcomes.foldl (reviewStep srsMap repeatInterval now) c).srsLevel.getD 0 ∧
        (outcomes.foldl (reviewStep srsMap repeatInterval now) c).srsLevel.getD 0 ≤
          (srsMap.length : Int) - 1 := by
  intro outcomes
  induction outcomes with
  | nil => intro c h; exact absurd rfl h
  | cons o rest ih =>
    intro c _
    rw [List.foldl_cons]
    rcases Decidable.em (rest = []) with h | h
    · subst h
      rw [List.foldl_nil]
      unfold reviewStep markRightCard markWrongCard
      split
      · exact updateSrsLevelCard_srsLevel_mem srsMap repeatInterval now 1 c hlen
      · exact updateSrsLevelCard_srsLevel_mem srsMap repeatInterval now (-1) c hlen
    · exact ih _ h

/-- C2: for every card in the store (an absent srsLevel counting as level 0,
and, as recorded in the data model, a level below the table length),
markRight increments stat.streak.right by exactly 1, sets srsLevel to
min(oldLevel + 1, srsMap.length - 1) and sets nextReview via getNextReview at
the new level; markWrong increments stat.streak.wrong by exactly 1, sets
srsLevel to max(oldLevel - 1, 0) and sets nextReview via repeatReview; and
after any nonempty sequence of these transitions srsLevel stays in
[0, srsMap.length - 1]. -/
theorem claim_C2_scheduler (srsMap : List Nat) (repeatInterval now : Nat) (c : DbCard)
    (hlen : srsMap ≠ []) (h0 : 0 ≤ c.srsLevel.getD 0)
    (hlt : c.srsLevel.getD 0 < (srsMap.length : Int)) :
    markRightCard srsMap repeatInterval now c =
      { c with
        srsLevel := some (min (c.srsLevel.getD 0 + 1) ((srsMap.length : Int) - 1)),
        stat := some ⟨⟨(c.stat.getD ⟨⟨0, 0⟩⟩).streak.right + 1, (c.stat.getD ⟨⟨0, 0⟩⟩).streak.wrong⟩⟩,
        nextReview := some (getNextReview srsMap now
          (min (c.srsLevel.getD 0 + 1) ((srsMap.length : Int) - 1))) } ∧
    markWrongCard srsMap repeatInterval now c =
      { c with
        srsLevel := some (max (c.srsLevel.getD 0 - 1) 0),
        stat := some ⟨⟨(c.stat.getD ⟨⟨0, 0⟩⟩).streak.right, (c.stat.getD ⟨⟨0, 0⟩⟩).streak.wrong + 1⟩⟩,
        nextReview := some (repeatReview repeatInterval now) } ∧
    ∀ outcomes : List Bool, outcomes ≠ [] →
      0 ≤ (outcomes.foldl (reviewStep srsMap repeatInterval now) c).srsLevel.getD 0 ∧
        (outcomes.foldl (reviewStep srsMap repeatInterval now) c).srsLevel.getD 0 ≤
          (srsMap.length : Int) - 1 :=
  ⟨markRightCard_eq srsMap repeatInterval now c hlen h0,
   markWrongCard_eq srsMap repeatInterval now c h0 hlt,
   fun outcomes h => reviewSeq_srsLevel_mem srsMap repeatInterval now hlen outcomes c h⟩

theorem claim_C2_scheduler_witness :
    markRightCard [100, 200, 300] 10 1000 { cid := "c1", srsLevel := some 1, stat := some ⟨⟨2, 3⟩⟩ } =
      { cid := "c1", srsLevel := some 2, stat := some ⟨⟨3, 3⟩⟩, nextReview := some 1300 } ∧
    markWrongCard [100, 200, 300] 10 1000 { cid := "c1", srsLevel := some 1, stat := some ⟨⟨2, 3⟩⟩ } =
      { cid := "c1", srsLevel := some 0, stat := some ⟨⟨2, 4⟩⟩, nextReview := some 1010 } ∧
    (0 ≤ ([true, true, true, false].foldl (reviewStep [100, 200, 300] 10 1000)
        { cid := "c1", srsLevel := some 1, stat := some ⟨⟨2, 3⟩⟩ }).srsLevel.getD 0 ∧
      ([true, true, true, false].foldl (reviewStep [100, 200, 300] 10 1000)
        { cid := "c1", srsLevel := some 1, stat := some ⟨⟨2, 3⟩⟩ }).srsLevel.getD 0 ≤ 2) := by
  have h := claim_C2_scheduler [100, 200, 300] 10 1000
    { cid := "c1", srsLevel := some 1, stat := some ⟨⟨2, 3⟩⟩ }
    (by decide) (by decide) (by decide)
  refine ⟨?_, ?_, ?_⟩
  · rw [h.1]; decide
  · rw [h.2.1]; decide
  · have hr := h.2.2 [true, true, true, false] (by decide)
    norm_num at hr
    exact hr

/-- C9: calling updateSrsLevel (hence markRight or markWrong) with a cardId
that matches no card in the card collection returns without modifying any
collection: no srsLevel, stat or nextReview is written anywhere. -/
theorem claim_C9_missing_card (srsMap : List Nat) (repeatInterval now : Nat) (d : Int)
    (cardId : String) (cards : List DbCard)
    (h : ∀ c ∈ cards, c.cid ≠ cardId) :
    updateSrsLevelStore srsMap repeatInterval now d cardId cards = cards := by
  have hf : cards.find? (fun c => c.cid == cardId) = none :=
    List.find?_eq_none.mpr (fun x hx => by simpa using h x hx)
  unfold updateSrsLevelStore
  rw [hf]

theorem claim_C9_missing_card_witness :
    (∀ c ∈ [({ cid := "a", srsLevel := some 1 } : DbCard)], c.cid ≠ "zzz") ∧
    updateSrsLevelStore [100] 10 5 1 "zzz" [{ cid := "a", srsLevel := some 1 }] =
      [{ cid := "a", srsLevel := some 1 }] :=
  ⟨by decide, claim_C9_missing_card [100] 10 5 1 "zzz" _ (by decide)⟩

set_option maxRecDepth 4096 in
/-- C1: divergence evidence for the back-template branch of
transformCreateOrUpdate. The claim (and the symmetric front branch, and the
spec) require tBack to be the text of u.back after the marker and u.back to
become the md5 marker of the rendered text; the code reads the raw template
text out of u.front instead. On the create payload with front "F" and back
"@template\nB", for every digest, renderer and store lookup, the code sets
tBack to the empty string (the text of u.front after the marker length,
clipped away) and, the empty tBack being falsy, leaves u.back as the raw
marker text instead of an md5 marker. -/
theorem claim_C1_back_template_bug :
    ∀ (md5 : String → String) (render : String → List (String × String) → String → String)
      (getData : String → Option (List (String × String))) (getFront : String → String)
      (ts : Nat),
      (transformCreateOrUpdate md5 render getData getFront none
        { front := some "F", back := some "@template\nB" } ts).tBack = some "" ∧
      (transformCreateOrUpdate md5 render getData getFront none
        { front := some "F", back := some "@template\nB" } ts).back = some "@template\nB" ∧
      (transformCreateOrUpdate md5 render getData getFront none
        { front := some "F", back := some "@template\nB" } ts).created = some ts := by
  intro md5 render getData getFront ts
  have h1 : (jsStartsWith "F" templateMarker) = false := by decide
  have h2 : (jsStartsWith "@template\nB" templateMarker) = true := by decide
  have h3 : (jsDrop "F" templateMarker.length) = "" := by decide
  have h4 : strTruthy (some "") = false := by decide
  have h5 : strTruthy none = false := by decide
  simp only [transformCreateOrUpdate]
  simp only [Option.getD_some, Option.getD_none, h1, h2, h3, h4, h5, if_false, if_true,
    Bool.false_eq_true, ite_false, ite_true]
  exact ⟨trivial, trivial, trivial⟩

theorem stableStringify_perm (l1 l2 : List (String × String)) (hp : l1.Perm l2)
    (hnd : (l1.map Prod.fst).Nodup) : stableStringify l1 = stableStringify l2 := by
  haveI : IsTotal (String × String) keyLE := ⟨fun a b => le_total a.1 b.1⟩
  haveI : IsTrans (String × String) keyLE := ⟨fun a b c hab hbc => le_trans hab hbc⟩
  have hs1 := List.sorted_insertionSort keyLE l1
  have hs2 := List.sorted_insertionSort keyLE l2
  have hperm1 : (l1.insertionSort keyLE).Perm l1 := List.perm_insertionSort keyLE l1
  have hperm2 : (l2.insertionSort keyLE).Perm l2 := List.perm_insertionSort keyLE l2
  have hp12 : (l1.insertionSort keyLE).Perm (l2.insertionSort keyLE) :=
    hperm1.trans (hp.trans hperm2.symm)
  have hne1 : (l1.insertionSort keyLE).Pairwise
      (fun a b : String × String => a.1 ≠ b.1) := by
    have h0 : l1.Pairwise (fun a b : String × String => a.1 ≠ b.1) :=
      List.pairwise_map.mp hnd
    exact (hperm1.pairwise_iff (fun h => h.symm)).mpr h0
  have hne2 : (l2.insertionSort keyLE).Pairwise
      (fun a b : String × String => a.1 ≠ b.1) :=
    (hp12.pairwise_iff (fun h => h.symm)).mp hne1
  have hlt1 : (l1.insertionSort keyLE).Pairwise
      (fun a b : String × String => a.1 < b.1) := by
    refine (hs1.and hne1).imp ?_
    rintro a b ⟨hab, hne⟩
    exact lt_of_le_of_ne hab hne
  have hlt2 : (l2.insertionSort keyLE).Pairwise
      (fun a b : String × String => a.1 < b.1) := by
    refine (hs2.and hne2).imp ?_
    rintro a b ⟨hab, hne⟩
    exact lt_of_le_of_ne hab hne
  haveI : IsAntisymm (String × String) (fun a b => a.1 < b.1) :=
    ⟨fun a b h1 h2 => absurd h2 (not_lt.mpr (le_of_lt h1))⟩
  have heq : l1.insertionSort keyLE = l2.insertionSort keyLE :=
    List.eq_of_perm_of_sorted hp12 hlt1 hlt2
  unfold stableStringify
  rw [heq]

/-- C7: getNoteId returns equal keys for any two data maps with the same
key-to-value bindings regardless of entry insertion order (well-formed maps
carry no repeated key), and getTemplateId returns equal keys for any two
templates with equal front, back, css and js fields. -/
theorem claim_C7_content_hash (md5 : String → String) (d1 d2 : List (String × String))
    (t1 t2 : TemplateSig) (hp : d1.Perm d2) (hnd : (d1.map Prod.fst).Nodup)
    (hf : t1.front = t2.front) (hb : t1.back = t2.back) (hc : t1.css = t2.css)
    (hj : t1.js = t2.js) :
    getNoteId md5 d1 = getNoteId md5 d2 ∧ getTemplateId md5 t1 = getTemplateId md5 t2 := by
  constructor
  · exact congrArg md5 (stableStringify_perm d1 d2 hp hnd)
  · unfold getTemplateId
    rw [hf, hb, hc, hj]

theorem claim_C7_content_hash_witness :
    ([("b", "2"), ("a", "1")] : List (String × String)).Perm [("a", "1"), ("b", "2")] ∧
    getNoteId (fun s => s) [("b", "2"), ("a", "1")] = getNoteId (fun s => s) [("a", "1"), ("b", "2")] ∧
    getTemplateId (fun s => s) { front := "f", back := some "k" } =
      getTemplateId (fun s => s) { front := "f", back := some "k" } := by
  refine ⟨by decide, ?_, ?_⟩
  · exact (claim_C7_content_hash (fun s => s) [("b", "2"), ("a", "1")] [("a", "1"), ("b", "2")]
      { front := "f" } { front := "f" } (by decide) (by decide) rfl rfl rfl rfl).1
  · exact (claim_C7_content_hash (fun s => s) [("b", "2"), ("a", "1")] [("a", "1"), ("b", "2")]
      { front := "f", back := some "k" } { front := "f", back := some "k" }
      (by decide) (by decide) rfl rfl rfl rfl).2

/-- C10: createMedia computes the digest of the supplied bytes and returns
it when the insert succeeds; when a media row with the same digest already
exists it returns the empty string and leaves the media collection (and the
whole store) unchanged. -/
theorem claim_C10_createMedia (md5b : List Nat → String) (st : Store) (name : String)
    (data : List Nat) :
    ((∃ m ∈ st.media, m.h = md5b data) → createMedia md5b st name data = (st, "")) ∧
    ((∀ m ∈ st.media, m.h ≠ md5b data) →
      createMedia md5b st name data =
        ({ st with media :=
            st.media ++ [{ h := md5b data, name := name, data := data, sourceId := none }] },
          md5b data)) := by
  constructor
  · rintro ⟨m, hm, he⟩
    have hany : st.media.any (fun m0 => m0.h == md5b data) = true :=
      List.any_eq_true.mpr ⟨m, hm, by simp [he]⟩
    simp [createMedia, hany]
  · intro h
    have hany : st.media.any (fun m0 => m0.h == md5b data) = false :=
      List.any_eq_false.mpr (fun m0 hm0 => by simpa using h m0 hm0)
    simp [createMedia, hany]

theorem claim_C10_createMedia_witness :
    (∃ m ∈ ({ media := [{ h := "H", name := "old", data := [1] }] } : Store).media, m.h = "H") ∧
    createMedia (fun _ => "H") { media := [{ h := "H", name := "old", data := [1] }] } "n" [2] =
      ({ media := [{ h := "H", name := "old", data := [1] }] }, "") ∧
    createMedia (fun _ => "H") {} "n" [2] =
      ({ media := [{ h := "H", name := "n", data := [2] }] }, "H") := by
  refine ⟨⟨{ h := "H", name := "old", data := [1] }, by simp, rfl⟩, ?_, ?_⟩
  · exact (claim_C10_createMedia (fun _ => "H")
      { media := [{ h := "H", name := "old", data := [1] }] } "n" [2]).1
      ⟨{ h := "H", name := "old", data := [1] }, by simp, rfl⟩
  · exact (claim_C10_createMedia (fun _ => "H") {} "n" [2]).2 (by decide)

/-- C5 counterexample: at limit 0 the claim reads data as the empty slice
[offset, offset + 0), but `if (options.limit)` treats the present 0 as falsy
and the code returns every row from the offset on. -/
theorem claim_C5_counterexample :
    (parseCond (fun x => x) [[("front", "A")]]
        { offset := none, limit := some 0, fields := some ["front"] }).1 ≠
      (claimSlice [[("front", "A")]] none (some 0)).map (projectRow ["front"]) := by
  decide

/-- C5 (amended): for every query and options with fields present, parseCond
returns count equal to the number of rows remaining after condition
filtering and virtual post-filters but before pagination; its data is that
row list sliced at [offset, offset + limit), an absent offset treated as 0
and an absent or zero limit meaning unbounded; and every returned row
contains only keys listed in the requested fields. -/
theorem claim_C5_amended_pagination
    (filterQ : List (List (String × String)) → List (List (String × String)))
    (rows : List (List (String × String))) (options : CondOptions) (fields : List String)
    (hf : options.fields = some fields) :
    (parseCond filterQ rows options).2 = (filterQ rows).length ∧
    (parseCond filterQ rows options).1 =
      (claimSlice (filterQ rows) options.offset
        (match options.limit with
         | some l => if l = 0 then none else some l
         | none => none)).map (projectRow fields) ∧
    ∀ c ∈ (parseCond filterQ rows options).1, ∀ kv ∈ c, kv.1 ∈ fields := by
  have hproj : ∀ (c : List (String × String)), ∀ kv ∈ projectRow fields c, kv.1 ∈ fields := by
    intro c kv hkv
    have h2 := (List.mem_filter.mp hkv).2
    simpa using h2
  unfold parseCond
  rw [hf]
  dsimp only
  refine ⟨rfl, ?_, ?_⟩
  · rcases options.limit with _ | l
    · rfl
    · by_cases h0 : l = 0
      · subst h0
        simp [jsSlice, claimSlice]
      · have hb : (l == 0) = false := by simpa using h0
        simp only [hb, if_false, Bool.false_eq_true, if_neg h0]
        unfold jsSlice claimSlice
        dsimp only
        rw [List.drop_take]
        have harith : options.offset.getD 0 + l - options.offset.getD 0 = l := by omega
        rw [harith]
  · intro c hc kv hkv
    rcases List.mem_map.mp hc with ⟨c0, _, rfl⟩
    exact hproj c0 kv hkv

theorem claim_C5_amended_pagination_witness :
    ({ offset := some 1, limit := some 1, fields := some ["front"] } : CondOptions).fields =
      some ["front"] ∧
    (parseCond (fun x => x)
        [[("front", "A"), ("id", "1")], [("front", "B"), ("id", "2")], [("front", "C")]]
        { offset := some 1, limit := some 1, fields := some ["front"] }).2 = 3 ∧
    (parseCond (fun x => x)
        [[("front", "A"), ("id", "1")], [("front", "B"), ("id", "2")], [("front", "C")]]
        { offset := some 1, limit := some 1, fields := some ["front"] }).1 =
      [[("front", "B")]] := by
  have h := claim_C5_amended_pagination (fun x => x)
    [[("front", "A"), ("id", "1")], [("front", "B"), ("id", "2")], [("front", "C")]]
    { offset := some 1, limit := some 1, fields := some ["front"] } ["front"] rfl
  refine ⟨rfl, ?_, ?_⟩
  · rw [h.1]
    decide
  · rw [h.2.1]
    decide

theorem mem_firstFronts_not_mem (f : String) :
    ∀ (l : List QRow) (seen : List String), f ∈ firstFronts seen l → f ∉ seen := by
  intro l
  induction l with
  | nil =>
    intro seen h
    simp [firstFronts] at h
  | cons r rest ih =>
    intro seen h
    simp only [firstFronts] at h
    by_cases hm : r.front ∈ seen
    · rw [if_pos hm] at h
      exact ih seen h
    · rw [if_neg hm] at h
      rcases List.mem_cons.mp h with rfl | h2
      · exact hm
      · have h3 := ih (r.front :: seen) h2
        intro hf
        exact h3 (List.mem_cons_of_mem _ hf)

theorem firstFronts_congr :
    ∀ (l : List QRow) (s1 s2 : List String), (∀ a, a ∈ s1 ↔ a ∈ s2) →
      firstFronts s1 l = firstFronts s2 l := by
  intro l
  induction l with
  | nil => intro s1 s2 _; rfl
  | cons r rest ih =>
    intro s1 s2 h
    simp only [firstFronts]
    by_cases hm : r.front ∈ s1
    · rw [if_pos hm, if_pos ((h r.front).mp hm)]
      exact ih s1 s2 h
    · rw [if_neg hm, if_neg (fun hx => hm ((h r.front).mpr hx))]
      have h2 := ih (r.front :: s1) (r.front :: s2) (fun a => by
        simp only [List.mem_cons]
        exact or_congr Iff.rfl (h a))
      rw [h2]

theorem dup_foldl (rows : List QRow) :
    ∀ col : List (String × List QRow),
      rows.foldl dupAdd col =
        col.map (fun kv => (kv.1, kv.2 ++ rows.filter (fun r => r.front == kv.1))) ++
          dupColSpec (objKeys col) rows := by
  induction rows with
  | nil =>
    intro col
    simp [dupColSpec, firstFronts]
  | cons r rest ih =>
    intro col
    rw [List.foldl_cons]
    by_cases h : objHas col r.front = true
    · have hdup : dupAdd col r =
          col.map (fun kv => if kv.1 == r.front then (kv.1, kv.2 ++ [r]) else kv) := by
        unfold dupAdd
        rw [if_pos h]
      rw [hdup, ih]
      have hkeys : objKeys
          (col.map (fun kv => if kv.1 == r.front then (kv.1, kv.2 ++ [r]) else kv)) =
          objKeys col := by
        unfold objKeys
        rw [List.map_map]
        apply List.map_congr_left
        intro kv _
        by_cases hb : kv.1 = r.front
        · simp [hb]
        · simp [hb]
      rw [hkeys]
      have hmem : r.front ∈ objKeys col := by
        unfold objHas at h
        rcases List.any_eq_true.mp h with ⟨kv, hkv, hbe⟩
        have hkveq : kv.1 = r.front := by simpa using hbe
        exact hkveq ▸ List.mem_map_of_mem _ hkv
      congr 1
      · rw [List.map_map]
        apply List.map_congr_left
        intro kv _
        by_cases hb : kv.1 = r.front
        · have hb1 : (kv.1 == r.front) = true := by simp [hb]
          have hb2 : (r.front == kv.1) = true := by simp [hb]
          simp only [Function.comp_apply, hb1, if_true, List.filter_cons, hb2]
          rw [List.append_assoc]
          rfl
        · have hb1 : (kv.1 == r.front) = false := by simp [hb]
          have hb2 : (r.front == kv.1) = false := by simp [Ne.symm hb]
          simp only [Function.comp_apply, hb1, List.filter_cons, hb2]
          rfl
      · unfold dupColSpec
        have hff : firstFronts (objKeys col) (r :: rest) = firstFronts (objKeys col) rest := by
          simp only [firstFronts]
          rw [if_pos hmem]
        rw [hff]
        apply List.map_congr_left
        intro f hf
        have hfne : r.front ≠ f := by
          intro he
          exact (mem_firstFronts_not_mem f rest (objKeys col) hf) (he ▸ hmem)
        rw [List.filter_cons, if_neg (by simpa using hfne)]
    · have hdup : dupAdd col r = col ++ [(r.front, [r])] := by
        unfold dupAdd
        rw [if_neg h]
      have hallne : ∀ kv ∈ col, kv.1 ≠ r.front := by
        intro kv hkv
        intro he
        exact h (List.any_eq_true.mpr ⟨kv, hkv, by simp [he]⟩)
      have hnotmem : r.front ∉ objKeys col := by
        intro hm
        rcases List.mem_map.mp hm with ⟨kv, hkv, he⟩
        exact hallne kv hkv he
      rw [hdup, ih]
      have hkeys : objKeys (col ++ [(r.front, [r])]) = objKeys col ++ [r.front] := by
        unfold objKeys
        rw [List.map_append]
        rfl
      rw [hkeys]
      rw [List.map_append, List.append_assoc]
      congr 1
      · apply List.map_congr_left
        intro kv hkv
        have hb2 : (r.front == kv.1) = false := by simp [Ne.symm (hallne kv hkv)]
        rw [List.filter_cons, if_neg (by simp [hb2])]
      · simp only [List.map_cons, List.map_nil, List.cons_append, List.nil_append]
        unfold dupColSpec
        have hff : firstFronts (objKeys col) (r :: rest) =
            r.front :: firstFronts (r.front :: objKeys col) rest := by
          simp only [firstFronts]
          rw [if_neg hnotmem]
        rw [hff, List.map_cons]
        congr 1
        · rw [List.filter_cons, if_pos (by simp)]
        · rw [firstFronts_congr rest (objKeys col ++ [r.front]) (r.front :: objKeys col)
            (fun a => by simp [List.mem_cons, List.mem_append, or_comm])]
          apply List.map_congr_left
          intro f hf
          have hfne : r.front ≠ f := by
            intro he
            have h3 := mem_firstFronts_not_mem f rest (r.front :: objKeys col) hf
            exact h3 (by simp [he])
          rw [List.filter_cons, if_neg (by simpa using hfne)]

theorem jsObjValues_no_idx (m : List (String × List QRow))
    (h : ∀ kv ∈ m, jsArrayIndex kv.1 = false) : jsObjValues m = m.map Prod.snd := by
  unfold jsObjValues
  have h1 : m.filter (fun kv => jsArrayIndex kv.1) = [] := by
    rw [List.filter_eq_nil_iff]
    intro kv hkv
    simp [h kv hkv]
  have h2 : m.filter (fun kv => !jsArrayIndex kv.1) = m := by
    rw [List.filter_eq_self]
    intro kv hkv
    simp [h kv hkv]
  rw [h1, h2]
  simp [List.insertionSort]

theorem mem_firstFronts_mem (f : String) :
    ∀ (l : List QRow) (seen : List String),
      f ∈ firstFronts seen l → f ∈ l.map (fun r => r.front) := by
  intro l
  induction l with
  | nil =>
    intro seen h
    simp [firstFronts] at h
  | cons r rest ih =>
    intro seen h
    simp only [firstFronts] at h
    by_cases hm : r.front ∈ seen
    · rw [if_pos hm] at h
      simp only [List.map_cons, List.mem_cons]
      exact Or.inr (ih seen h)
    · rw [if_neg hm] at h
      rcases List.mem_cons.mp h with rfl | h2
      · simp
      · simp only [List.map_cons, List.mem_cons]
        exact Or.inr (ih _ h2)

/-- C3 counterexample: with the faithful object enumeration, front texts
that are array-index strings break the claimed first-occurrence group
order. For fronts 2, 1, 2, 1 the program enumerates the group keyed "1"
numerically ahead of the group keyed "2" that was created first, while the
claim flattens the "2" group first. -/
theorem claim_C3_counterexample :
    isDuplicateFilter [⟨"2", none, 1⟩, ⟨"1", none, 2⟩, ⟨"2", none, 3⟩, ⟨"1", none, 4⟩] ≠
      isDuplicateSpec [⟨"2", none, 1⟩, ⟨"1", none, 2⟩, ⟨"2", none, 3⟩, ⟨"1", none, 4⟩] := by
  decide

/-- C3 (amended): for every list of joined rows none of whose front texts
is an array-index string (the canonical decimal form of an integer below
2^32 - 1, which the object enumeration reorders numerically first) or
`__proto__` (which the collation write would send to the prototype), the
is:duplicate post-filter groups rows by their front text, keeps exactly the
groups containing more than one row, and returns them flattened preserving
order of each group first occurrence and original order within each group;
in particular, for rows with fronts x, y, x, z, y the result fronts are
x, x, y, y (see the witness). -/
theorem claim_C3_is_duplicate (rows : List QRow)
    (h : ∀ r ∈ rows, jsArrayIndex r.front = false ∧ r.front ≠ "__proto__") :
    isDuplicateFilter rows = isDuplicateSpec rows := by
  unfold isDuplicateFilter isDuplicateSpec
  have hfold := dup_foldl rows []
  simp only [List.map_nil, List.nil_append] at hfold
  have hkeys : objKeys ([] : List (String × List QRow)) = [] := rfl
  rw [hkeys] at hfold
  rw [hfold]
  have hvals : jsObjValues (dupColSpec [] rows) = (dupColSpec [] rows).map Prod.snd := by
    apply jsObjValues_no_idx
    intro kv hkv
    unfold dupColSpec at hkv
    rcases List.mem_map.mp hkv with ⟨f, hf, rfl⟩
    have hfr := mem_firstFronts_mem f rows [] hf
    rcases List.mem_map.mp hfr with ⟨r, hr, hfe⟩
    exact hfe ▸ (h r hr).1
  rw [hvals]

theorem claim_C3_is_duplicate_witness :
    (∀ r ∈ [⟨"x", none, 1⟩, ⟨"y", none, 2⟩, ⟨"x", none, 3⟩, ⟨"z", none, 4⟩,
        (⟨"y", none, 5⟩ : QRow)], jsArrayIndex r.front = false ∧ r.front ≠ "__proto__") ∧
    isDuplicateFilter
        [⟨"x", none, 1⟩, ⟨"y", none, 2⟩, ⟨"x", none, 3⟩, ⟨"z", none, 4⟩, ⟨"y", none, 5⟩] =
      isDuplicateSpec
        [⟨"x", none, 1⟩, ⟨"y", none, 2⟩, ⟨"x", none, 3⟩, ⟨"z", none, 4⟩, ⟨"y", none, 5⟩] ∧
    isDuplicateFilter
        [⟨"x", none, 1⟩, ⟨"y", none, 2⟩, ⟨"x", none, 3⟩, ⟨"z", none, 4⟩, ⟨"y", none, 5⟩] =
      [⟨"x", none, 1⟩, ⟨"x", none, 3⟩, ⟨"y", none, 2⟩, ⟨"y", none, 5⟩] ∧
    (isDuplicateFilter
        [⟨"x", none, 1⟩, ⟨"y", none, 2⟩, ⟨"x", none, 3⟩, ⟨"z", none, 4⟩,
          ⟨"y", none, 5⟩]).map (fun r => r.front) = ["x", "x", "y", "y"] := by
  refine ⟨by decide, ?_, by decide, by decide⟩
  exact claim_C3_is_duplicate _ (by decide)

theorem dist_foldl (rows : List QRow) :
    ∀ (col : List (ColKey × QRow)) (ctr : Nat) (seen : List String),
      (∀ k : String, (col.any (fun kv => kv.1 == ColKey.str k) = true) ↔ k ∈ seen) →
      (∀ r ∈ rows, r.key ≠ some "") →
      ((rows.foldl distAdd (col, ctr)).1).map Prod.snd =
        col.map Prod.snd ++ distinctSpecGo seen rows := by
  induction rows with
  | nil =>
    intro col ctr seen _ _
    simp [distinctSpecGo]
  | cons r rest ih =>
    intro col ctr seen hseen hk
    have hktail : ∀ r0 ∈ rest, r0.key ≠ some "" :=
      fun r0 h0 => hk r0 (List.mem_cons_of_mem _ h0)
    rw [List.foldl_cons]
    rcases hrk : r.key with _ | k
    · have hstep : distAdd (col, ctr) r = (col ++ [(ColKey.fresh ctr, r)], ctr + 1) := by
        simp [distAdd, hrk, strTruthy]
      have hseen2 : ∀ k0 : String,
          ((col ++ [(ColKey.fresh ctr, r)]).any (fun kv => kv.1 == ColKey.str k0) = true) ↔
            k0 ∈ seen := by
        intro k0
        rw [List.any_append]
        simp [hseen k0]
      rw [hstep, ih (col ++ [(ColKey.fresh ctr, r)]) (ctr + 1) seen hseen2 hktail]
      simp [distinctSpecGo, hrk, List.map_append, List.append_assoc]
    · have hk0 : k ≠ "" := fun he => (hk r (by simp)) (by rw [hrk, he])
      by_cases hmem : k ∈ seen
      · have hany := (hseen k).mpr hmem
        have hstep : distAdd (col, ctr) r = (col, ctr) := by
          simp [distAdd, hrk, strTruthy, hk0, hany]
        rw [hstep, ih col ctr seen hseen hktail]
        simp [distinctSpecGo, hrk, hmem]
      · have hany : col.any (fun kv => kv.1 == ColKey.str k) = false :=
          Bool.eq_false_iff.mpr (fun hx => hmem ((hseen k).mp hx))
        have hstep : distAdd (col, ctr) r = (col ++ [(ColKey.str k, r)], ctr) := by
          simp [distAdd, hrk, strTruthy, hk0, hany]
        have hseen2 : ∀ k0 : String,
            ((col ++ [(ColKey.str k, r)]).any (fun kv => kv.1 == ColKey.str k0) = true) ↔
              k0 ∈ k :: seen := by
          intro k0
          rw [List.any_append]
          simp only [List.any_cons, List.any_nil, Bool.or_false, Bool.or_eq_true, hseen k0,
            List.mem_cons]
          constructor
          · rintro (h1 | h2)
            · exact Or.inr h1
            · left
              have : ColKey.str k = ColKey.str k0 := by simpa using h2
              cases this
              rfl
          · rintro (rfl | h2)
            · right
              simp
            · exact Or.inl h2
        rw [hstep, ih (col ++ [(ColKey.str k, r)]) ctr (k :: seen) hseen2 hktail]
        simp [distinctSpecGo, hrk, hmem, List.map_append, List.append_assoc]

theorem jsColValues_no_idx (m : List (ColKey × QRow))
    (h : ∀ kv ∈ m, colKeyArrayIndex kv.1 = false) : jsColValues m = m.map Prod.snd := by
  unfold jsColValues
  have h1 : m.filter (fun kv => colKeyArrayIndex kv.1) = [] := by
    rw [List.filter_eq_nil_iff]
    intro kv hkv
    simp [h kv hkv]
  have h2 : m.filter (fun kv => !colKeyArrayIndex kv.1) = m := by
    rw [List.filter_eq_self]
    intro kv hkv
    simp [h kv hkv]
  rw [h1, h2]
  simp [List.insertionSort]

theorem dist_foldl_strKeys :
    ∀ (rows : List QRow) (col : List (ColKey × QRow)) (ctr : Nat) (s : String),
      ColKey.str s ∈ ((rows.foldl distAdd (col, ctr)).1).map Prod.fst →
      ColKey.str s ∈ col.map Prod.fst ∨ ∃ r ∈ rows, r.key = some s := by
  intro rows
  induction rows with
  | nil =>
    intro col ctr s h
    exact Or.inl h
  | cons r rest ih =>
    intro col ctr s h
    rw [List.foldl_cons] at h
    have hweak : (ColKey.str s ∈ col.map Prod.fst ∨ ∃ r0 ∈ rest, r0.key = some s) →
        ColKey.str s ∈ col.map Prod.fst ∨ ∃ r0 ∈ r :: rest, r0.key = some s := by
      rintro (h1 | ⟨r0, hr0, hk0⟩)
      · exact Or.inl h1
      · exact Or.inr ⟨r0, List.mem_cons_of_mem _ hr0, hk0⟩
    have hfreshCase : ∀ ctr2 : Nat,
        distAdd (col, ctr) r = (col ++ [(ColKey.fresh ctr, r)], ctr2) →
        ColKey.str s ∈ col.map Prod.fst ∨ ∃ r0 ∈ r :: rest, r0.key = some s := by
      intro ctr2 hstep
      rw [hstep] at h
      rcases ih (col ++ [(ColKey.fresh ctr, r)]) ctr2 s h with h1 | h2
      · rw [List.map_append] at h1
        rcases List.mem_append.mp h1 with h3 | h4
        · exact Or.inl h3
        · simp at h4
      · exact hweak (Or.inr h2)
    rcases hrk : r.key with _ | k
    · exact hfreshCase (ctr + 1) (by simp [distAdd, hrk, strTruthy])
    · by_cases hk0 : k = ""
      · exact hfreshCase (ctr + 1) (by simp [distAdd, hrk, strTruthy, hk0])
      · by_cases hmem : col.any (fun kv => kv.1 == ColKey.str k) = true
        · have hstep : distAdd (col, ctr) r = (col, ctr) := by
            simp [distAdd, hrk, strTruthy, hk0, hmem]
          rw [hstep] at h
          exact hweak (ih col ctr s h)
        · have hany : col.any (fun kv => kv.1 == ColKey.str k) = false :=
            Bool.eq_false_iff.mpr hmem
          have hstep : distAdd (col, ctr) r = (col ++ [(ColKey.str k, r)], ctr) := by
            simp [distAdd, hrk, strTruthy, hk0, hany]
          rw [hstep] at h
          rcases ih (col ++ [(ColKey.str k, r)]) ctr s h with h1 | h2
          · rw [List.map_append] at h1
            rcases List.mem_append.mp h1 with h3 | h4
            · exact Or.inl h3
            · have hsk : ColKey.str s = ColKey.str k := by simpa using h4
              have hske : s = k := by injection hsk
              exact Or.inr ⟨r, List.mem_cons_self r rest, by rw [hrk, hske]⟩
          · exact hweak (Or.inr h2)

/-- C4 counterexample: with the faithful object enumeration, note keys that
are array-index strings break the claimed first-occurrence order even
though no key is the empty string. For keys 2, 1 the program enumerates the
row keyed "1" numerically ahead of the earlier row keyed "2", while the
claim keeps first-occurrence order. -/
theorem claim_C4_counterexample :
    (∀ r ∈ [⟨"fa", some "2", 1⟩, (⟨"fb", some "1", 2⟩ : QRow)], r.key ≠ some "") ∧
    isDistinctFilter [⟨"fa", some "2", 1⟩, ⟨"fb", some "1", 2⟩] ≠
      isDistinctSpec [⟨"fa", some "2", 1⟩, ⟨"fb", some "1", 2⟩] := by
  refine ⟨by decide, by decide⟩

/-- C4 (amended): for every list of joined rows whose note keys are well
formed (never the empty string, which the truthiness test conflates with an
absent key; never an array-index string, which the object enumeration
reorders numerically first; never `__proto__`, which the collation read
hits on the prototype), the is:distinct post-filter keeps, for each
distinct note key, only the first row carrying that key, keeps every row
without a note key as its own entry, and preserves order of first
occurrence. -/
theorem claim_C4_is_distinct (rows : List QRow) (hk : ∀ r ∈ rows, goodKey r.key) :
    isDistinctFilter rows = isDistinctSpec rows := by
  unfold isDistinctFilter isDistinctSpec
  have hkey0 : ∀ r ∈ rows, r.key ≠ some "" := by
    intro r hr he
    have hg := hk r hr
    rw [he] at hg
    exact hg.1 rfl
  have hfold := dist_foldl rows [] 0 [] (fun k => by simp) hkey0
  have hvals : jsColValues (rows.foldl distAdd ([], 0)).1 =
      ((rows.foldl distAdd ([], 0)).1).map Prod.snd := by
    apply jsColValues_no_idx
    intro kv hkv
    cases hck : kv.1 with
    | fresh n => rfl
    | str s =>
      have hmem0 : ColKey.str s ∈ ((rows.foldl distAdd ([], 0)).1).map Prod.fst := by
        rw [← hck]
        exact List.mem_map_of_mem Prod.fst hkv
      rcases dist_foldl_strKeys rows [] 0 s hmem0 with h1 | ⟨r, hr, hkey⟩
      · simp at h1
      · have hg := hk r hr
        rw [hkey] at hg
        simpa [colKeyArrayIndex] using hg.2.1
  rw [hvals]
  simpa using hfold

theorem claim_C4_is_distinct_witness :
    (∀ r ∈ [⟨"f1", some "a", 1⟩, ⟨"f2", some "a", 2⟩, ⟨"f3", some "b", 3⟩,
        (⟨"f4", none, 4⟩ : QRow)], goodKey r.key) ∧
    isDistinctFilter [⟨"f1", some "a", 1⟩, ⟨"f2", some "a", 2⟩, ⟨"f3", some "b", 3⟩,
        (⟨"f4", none, 4⟩ : QRow)] =
      isDistinctSpec [⟨"f1", some "a", 1⟩, ⟨"f2", some "a", 2⟩, ⟨"f3", some "b", 3⟩,
        (⟨"f4", none, 4⟩ : QRow)] ∧
    isDistinctSpec [⟨"f1", some "a", 1⟩, ⟨"f2", some "a", 2⟩, ⟨"f3", some "b", 3⟩,
        (⟨"f4", none, 4⟩ : QRow)] =
      [⟨"f1", some "a", 1⟩, ⟨"f3", some "b", 3⟩, ⟨"f4", none, 4⟩] := by
  refine ⟨by decide, ?_, by decide⟩
  exact claim_C4_is_distinct _ (by decide)

theorem mem_objKeys_objSet (m : List (String × α)) (k : String) (v : α) (a : String) :
    a ∈ objKeys (objSet m k v) ↔ a = k ∨ a ∈ objKeys m := by
  unfold objSet
  by_cases h : objHas m k = true
  · rw [if_pos h]
    have hkeys : objKeys (m.map fun kv => if kv.1 == k then (k, v) else kv) = objKeys m := by
      unfold objKeys
      rw [List.map_map]
      apply List.map_congr_left
      intro kv _
      by_cases hb : kv.1 = k
      · simp [hb]
      · simp [hb]
    rw [hkeys]
    have hk : k ∈ objKeys m := by
      rcases List.any_eq_true.mp h with ⟨kv, hkv, hbe⟩
      have hkveq : kv.1 = k := by simpa using hbe
      exact hkveq ▸ List.mem_map_of_mem _ hkv
    constructor
    · exact Or.inr
    · rintro (rfl | h2)
      · exact hk
      · exact h2
  · rw [if_neg h]
    unfold objKeys
    rw [List.map_append]
    simp [or_comm]

theorem mem_objKeys_of_objGet_isSome (m : List (String × α)) (k : String)
    (h : (objGet m k).isSome = true) : k ∈ objKeys m := by
  unfold objGet at h
  cases hf : m.find? (fun kv => kv.1 == k) with
  | none => rw [hf] at h; simp at h
  | some kv =>
    have hp := List.find?_some hf
    have hm := List.mem_of_find?_eq_some hf
    have hkeq : kv.1 = k := by simpa using hp
    exact hkeq ▸ List.mem_map_of_mem _ hm

theorem noteDataStep_keys (n : DbNote) (kv : String × String)
    (hinv : ∀ a, a ∈ objKeys n.data ↔ a ∈ objKeys n.order) :
    ∀ a, a ∈ objKeys (noteDataStep n kv).data ↔ a ∈ objKeys (noteDataStep n kv).order := by
  intro a
  unfold noteDataStep
  dsimp only
  by_cases h : numFalsy (objGet n.order kv.1) = true
  · rw [if_pos h]
    rw [mem_objKeys_objSet, mem_objKeys_objSet]
    exact or_congr Iff.rfl (hinv a)
  · rw [if_neg h]
    rw [mem_objKeys_objSet]
    have hk : kv.1 ∈ objKeys n.order := by
      apply mem_objKeys_of_objGet_isSome
      cases hg : objGet n.order kv.1 with
      | none => exact absurd (by simp [numFalsy, hg]) h
      | some v0 => simp
    constructor
    · rintro (rfl | h2)
      · exact hk
      · exact (hinv a).mp h2
    · intro h2
      exact Or.inr ((hinv a).mpr h2)

theorem updateNoteData_keys :
    ∀ (patch : List (String × String)) (n : DbNote),
      (∀ a, a ∈ objKeys n.data ↔ a ∈ objKeys n.order) →
      ∀ a, a ∈ objKeys (updateNoteData patch n).data ↔
        a ∈ objKeys (updateNoteData patch n).order := by
  intro patch
  induction patch with
  | nil => intro n h; exact h
  | cons kv rest ih =>
    intro n h
    unfold updateNoteData at ih ⊢
    rw [List.foldl_cons]
    exact ih (noteDataStep n kv) (noteDataStep_keys n kv h)

theorem freshNoteStep_keys (acc : List (String × Int) × List (String × String))
    (kv : String × String)
    (hinv : ∀ a, a ∈ objKeys acc.2 ↔ a ∈ objKeys acc.1) :
    ∀ a, a ∈ objKeys (freshNoteStep acc kv).2 ↔ a ∈ objKeys (freshNoteStep acc kv).1 := by
  intro a
  unfold freshNoteStep
  dsimp only
  by_cases h : numFalsy (objGet acc.1 kv.1) = true
  · rw [if_pos h]
    rw [mem_objKeys_objSet, mem_objKeys_objSet]
    exact or_congr Iff.rfl (hinv a)
  · rw [if_neg h]
    rw [mem_objKeys_objSet]
    have hk : kv.1 ∈ objKeys acc.1 := by
      apply mem_objKeys_of_objGet_isSome
      cases hg : objGet acc.1 kv.1 with
      | none => exact absurd (by simp [numFalsy, hg]) h
      | some v0 => simp
    constructor
    · rintro (rfl | h2)
      · exact hk
      · exact (hinv a).mp h2
    · intro h2
      exact Or.inr ((hinv a).mpr h2)

theorem freshFold_keys :
    ∀ (patch : List (String × String)) (acc : List (String × Int) × List (String × String)),
      (∀ a, a ∈ objKeys acc.2 ↔ a ∈ objKeys acc.1) →
      ∀ a, a ∈ objKeys (patch.foldl freshNoteStep acc).2 ↔
        a ∈ objKeys (patch.foldl freshNoteStep acc).1 := by
  intro patch
  induction patch with
  | nil => intro acc h; exact h
  | cons kv rest ih =>
    intro acc h
    rw [List.foldl_cons]
    exact ih (freshNoteStep acc kv) (freshNoteStep_keys acc kv h)

theorem sortedFold_keys :
    ∀ (l : List (Nat × (String × String)))
      (acc : List (String × String) × List (String × Int)),
      (∀ a, a ∈ objKeys acc.1 ↔ a ∈ objKeys acc.2) →
      ∀ a, a ∈ objKeys (l.foldl sortedStep acc).1 ↔
        a ∈ objKeys (l.foldl sortedStep acc).2 := by
  intro l
  induction l with
  | nil => intro acc h; exact h
  | cons ikv rest ih =>
    intro acc h
    rw [List.foldl_cons]
    apply ih
    intro a
    unfold sortedStep
    dsimp only
    rw [mem_objKeys_objSet, mem_objKeys_objSet]
    exact or_congr Iff.rfl (h a)

/-- C8: for every note row, after any sequence of note insert and update
operations (note creation through the array branch of the pre-insert hook or
through the data branch of updateMany, followed by any sequence of
data-branch updates), the key set of note.order equals the key set of
note.data. -/
theorem claim_C8_note_key_sets (i : NoteInit) (ops : List (List (String × String)))
    (a : String) :
    a ∈ objKeys (applyNoteUpdates (noteInit i) ops).data ↔
      a ∈ objKeys (applyNoteUpdates (noteInit i) ops).order := by
  have hinit : ∀ a, a ∈ objKeys (noteInit i).data ↔ a ∈ objKeys (noteInit i).order := by
    cases i with
    | sorted md5 l =>
      intro a
      unfold noteInit nHookInsert
      dsimp only
      exact sortedFold_keys l.enum ([], []) (fun a0 => Iff.rfl) a
    | patch md5 p =>
      intro a
      unfold noteInit noteFromPatch
      dsimp only
      exact freshFold_keys p ([], []) (fun a0 => Iff.rfl) a
  have hfold : ∀ (ops : List (List (String × String))) (n : DbNote),
      (∀ a, a ∈ objKeys n.data ↔ a ∈ objKeys n.order) →
      ∀ a, a ∈ objKeys (applyNoteUpdates n ops).data ↔
        a ∈ objKeys (applyNoteUpdates n ops).order := by
    intro ops
    induction ops with
    | nil => intro n h; exact h
    | cons p rest ih =>
      intro n h
      unfold applyNoteUpdates at ih ⊢
      rw [List.foldl_cons]
      exact ih (updateNoteData p n) (updateNoteData_keys p n h)
  exact hfold ops (noteInit i) hinit a

theorem tryInsertMedia_source (st : Store) (m : MediaRow) :
    (tryInsertMedia st m).source = st.source := by
  unfold tryInsertMedia
  split <;> rfl

theorem deckResolve_source (st : Store) (newId name : String) :
    (deckResolve st newId name).1.source = st.source := by
  unfold deckResolve
  split <;> rfl

theorem ankiDeckStep_source (uuid : Nat → String) (el : AnkiCardEl) (a : AnkiState) :
    (ankiDeckStep uuid el a).st.source = a.st.source := by
  unfold ankiDeckStep
  split
  · rfl
  · exact deckResolve_source a.st (uuid a.ctr) el.deckName

theorem tryInsertTemplate_source (st : Store) (t : TemplateRow) :
    (tryInsertTemplate st t).source = st.source := by
  unfold tryInsertTemplate
  split <;> rfl

theorem ankiTemplateStep_source (sourceH : String) (el : AnkiCardEl) (a : AnkiState) :
    (ankiTemplateStep sourceH el a).st.source = a.st.source := by
  unfold ankiTemplateStep
  split
  · rfl
  · exact tryInsertTemplate_source a.st _

theorem tryInsertNote_source (st : Store) (n : NoteRow) :
    (tryInsertNote st n).source = st.source := by
  unfold tryInsertNote
  split <;> rfl

theorem ankiNoteStep_source (md5 : String → String) (sourceH : String) (el : AnkiCardEl)
    (a : AnkiState) :
    (ankiNoteStep md5 sourceH el a).st.source = a.st.source := by
  unfold ankiNoteStep
  split
  · rfl
  · exact tryInsertNote_source a.st _

theorem tryInsertCard_source (st : Store) (c : DbCard) :
    (tryInsertCard st c).source = st.source := by
  unfold tryInsertCard
  split <;> rfl

theorem ankiCardInsertStep_source (md5 : String → String)
    (render : String → List (String × String) → String → String)
    (uuid : Nat → String) (now : Nat) (sourceH : String) (el : AnkiCardEl) (a : AnkiState) :
    (ankiCardInsertStep md5 render uuid now sourceH el a).st.source = a.st.source := by
  unfold ankiCardInsertStep
  exact tryInsertCard_source a.st _

theorem fromAnkiCardStep_source (md5 : String → String)
    (render : String → List (String × String) → String → String)
    (uuid : Nat → String) (now : Nat) (sourceH : String) (a : AnkiState) (el : AnkiCardEl) :
    (fromAnkiCardStep md5 render uuid now sourceH a el).st.source = a.st.source := by
  unfold fromAnkiCardStep
  rw [ankiCardInsertStep_source, ankiNoteStep_source, ankiTemplateStep_source,
    ankiDeckStep_source]

theorem cardFold_source (md5 : String → String)
    (render : String → List (String × String) → String → String)
    (uuid : Nat → String) (now : Nat) (sourceH : String) :
    ∀ (l : List AnkiCardEl) (a : AnkiState),
      ((l.foldl (fromAnkiCardStep md5 render uuid now sourceH) a).st.source) = a.st.source := by
  intro l
  induction l with
  | nil => intro a; rfl
  | cons el rest ih =>
    intro a
    rw [List.foldl_cons, ih, fromAnkiCardStep_source]

theorem chunkFold_source (md5 : String → String)
    (render : String → List (String × String) → String → String)
    (uuid : Nat → String) (now : Nat) (sourceH : String) :
    ∀ (chunks : List (List AnkiCardEl)) (a : AnkiState),
      ((chunks.foldl
          (fun (acc : AnkiState) (c : List AnkiCardEl) =>
            c.foldl (fromAnkiCardStep md5 render uuid now sourceH) acc) a).st.source) =
        a.st.source := by
  intro chunks
  induction chunks with
  | nil => intro a; rfl
  | cons c rest ih =>
    intro a
    rw [List.foldl_cons, ih, cardFold_source]

theorem mediaFold_source (sourceH : String) :
    ∀ (l : List AnkiMedia) (st : Store),
      ((l.foldl
          (fun s el =>
            tryInsertMedia s { h := el.h, name := el.name, data := el.data, sourceId := some sourceH })
          st).source) = st.source := by
  intro l
  induction l with
  | nil => intro st; rfl
  | cons el rest ih =>
    intro st
    rw [List.foldl_cons, ih, tryInsertMedia_source]

theorem fromAnki_duplicate_abort (md5b : List Nat → String) (md5 : String → String)
    (render : String → List (String × String) → String → String)
    (uuid : Nat → String) (now : Nat) (pkg : AnkiPkg) (st : Store)
    (h : ∃ s ∈ st.source, s.h = md5b pkg.fileBytes) :
    fromAnki md5b md5 render uuid now pkg st = st := by
  rcases h with ⟨s, hs, he⟩
  have hany : st.source.any (fun x => x.h == md5b pkg.fileBytes) = true :=
    List.any_eq_true.mpr ⟨s, hs, by simp [he]⟩
  unfold fromAnki insertSource
  simp only [hany, if_true]

theorem fromAnki_has_source (md5b : List Nat → String) (md5 : String → String)
    (render : String → List (String × String) → String → String)
    (uuid : Nat → String) (now : Nat) (pkg : AnkiPkg) (st : Store) :
    ∃ s ∈ (fromAnki md5b md5 render uuid now pkg st).source, s.h = md5b pkg.fileBytes := by
  unfold fromAnki insertSource
  by_cases hany : st.source.any (fun x => x.h == md5b pkg.fileBytes) = true
  · simp only [hany, if_true]
    rcases List.any_eq_true.mp hany with ⟨s, hs, hbe⟩
    exact ⟨s, hs, by simpa using hbe⟩
  · dsimp only
    rw [Bool.eq_false_iff.mpr hany]
    simp only [Bool.false_eq_true, if_false]
    rw [chunkFold_source]
    dsimp only
    rw [mediaFold_source]
    dsimp only
    refine ⟨{ h := md5b pkg.fileBytes, name := pkg.filePath, created := now }, ?_, rfl⟩
    simp

/-- C6: when a Source row with the digest of the raw package bytes already
exists, fromAnki returns without touching any collection; consequently
importing the identical package a second time (at any later time, with any
uuid supply, renderer or string digest) leaves the store exactly as after
the first import. -/
theorem claim_C6_import_dedup :
    ∀ (md5b : List Nat → String) (md5 md52 : String → String)
      (render render2 : String → List (String × String) → String → String)
      (uuid uuid2 : Nat → String) (now now2 : Nat) (pkg : AnkiPkg) (st : Store),
      ((∃ s ∈ st.source, s.h = md5b pkg.fileBytes) →
        fromAnki md5b md5 render uuid now pkg st = st) ∧
      fromAnki md5b md52 render2 uuid2 now2 pkg (fromAnki md5b md5 render uuid now pkg st) =
        fromAnki md5b md5 render uuid now pkg st := by
  intro md5b md5 md52 render render2 uuid uuid2 now now2 pkg st
  constructor
  · exact fromAnki_duplicate_abort md5b md5 render uuid now pkg st
  · exact fromAnki_duplicate_abort md5b md52 render2 uuid2 now2 pkg _
      (fromAnki_has_source md5b md5 render uuid now pkg st)

theorem claim_C6_import_dedup_witness :
    (∃ s ∈ ({ source := [{ h := "H", name := "p" }] } : Store).source,
      s.h = (fun _ : List Nat => "H") [1, 2]) ∧
    fromAnki (fun _ => "H") (fun s => s) (fun t _ _ => t) (fun _ => "u") 7
        { filePath := "f", fileBytes := [1, 2] } { source := [{ h := "H", name := "p" }] } =
      { source := [{ h := "H", name := "p" }] } := by
  refine ⟨⟨{ h := "H", name := "p" }, by simp, rfl⟩, ?_⟩
  exact (claim_C6_import_dedup (fun _ => "H") (fun s => s) (fun s => s) (fun t _ _ => t)
    (fun t _ _ => t) (fun _ => "u") (fun _ => "u") 7 7
    { filePath := "f", fileBytes := [1, 2] } { source := [{ h := "H", name := "p" }] }).1
    ⟨{ h := "H", name := "p" }, by simp, rfl⟩
